import Mathlib

/-!
Verification of the lode persistence engine (github.com/justapithecus/lode).

Shallow embedding of the Go sources: strings are lists of characters,
byte slices are lists of natural numbers below 256, Go errors are an
inductive type, and stateful iterators are explicit state-passing
functions.  Every definition is translated from the corresponding Go
function; definitions whose names end in the word Spec are instead
transcriptions of the specification text, used to compare the code
against the spec.
-/

set_option maxRecDepth 4000

/-- Go strings, modelled as lists of characters. -/
abbrev GoStr := List Char

/-- Go strings.Split(s, sep) for a one-character separator: splits around
each occurrence of the separator, keeping empty fields.  The result is
never empty; splitting the empty string yields one empty field. -/
def goSplit (sep : Char) : GoStr → List GoStr
  | [] => [[]]
  | c :: rest =>
    if c = sep then [] :: goSplit sep rest
    else
      match goSplit sep rest with
      | [] => [[c]]
      | p :: ps => (c :: p) :: ps

/-- Go strings.Join(parts, sep) for a one-character separator. -/
def goJoin (sep : Char) : List GoStr → GoStr
  | [] => []
  | [x] => x
  | x :: xs => x ++ sep :: goJoin sep xs

/-- Go path.Clean, restricted to the component level: empty and single-dot
components are dropped; a double-dot component pops the previous component
when one exists (and is not itself a double dot), is dropped at the root of
a rooted path, and is kept at the start of a relative path.  The
accumulator holds the output components in reverse order. -/
def cleanSeg (rooted : Bool) : List GoStr → List GoStr → List GoStr
  | acc, [] => acc.reverse
  | acc, c :: rest =>
    if c = [] ∨ c = ".".toList then cleanSeg rooted acc rest
    else if c = "..".toList then
      match acc with
      | [] => if rooted then cleanSeg rooted [] rest else cleanSeg rooted ["..".toList] rest
      | a :: as =>
        if a = "..".toList then cleanSeg rooted (c :: a :: as) rest
        else cleanSeg rooted as rest
    else cleanSeg rooted (c :: acc) rest

/-- Go path.Clean: returns the shortest path name equivalent to the
argument by lexical processing; the empty path becomes a single dot. -/
def pathClean (p : GoStr) : GoStr :=
  if p = [] then ".".toList
  else
    let rooted := p.head? = some '/'
    let comps := cleanSeg rooted [] (goSplit '/' p)
    let out := goJoin '/' comps
    if rooted then '/' :: out
    else if out = [] then ".".toList else out

/-- Go path.Join body loop: appends a separator before every element after
the first non-empty one. -/
def joinBuf : List GoStr → GoStr → GoStr
  | [], buf => buf
  | e :: rest, buf =>
    if buf = [] ∧ e = [] then joinBuf rest buf
    else if buf = [] then joinBuf rest e
    else joinBuf rest (buf ++ '/' :: e)

/-- Go path.Join: joins the elements with slashes, ignoring empty
elements, and cleans the result; all-empty input gives the empty path. -/
def pathJoin (elems : List GoStr) : GoStr :=
  if elems.all (· = []) then []
  else pathClean (joinBuf elems [])

/-- DefaultLayout.ManifestPath from layout.go: joins datasets, the dataset
id, snapshots, the segment id and manifest.json with path.Join. -/
def ManifestPath (dataset segment : GoStr) : GoStr :=
  pathJoin ["datasets".toList, dataset, "snapshots".toList, segment, "manifest.json".toList]

/-- DefaultLayout.isValidManifestPath from layout.go: the path must split
on slashes into exactly datasets, a non-empty dataset id, snapshots, a
non-empty segment id, and manifest.json. -/
def isValidManifestPath (p : GoStr) : Bool :=
  let parts := goSplit '/' p
  if parts.length ≠ 5 then false
  else
    (parts.getD 0 [] = "datasets".toList) &&
    (parts.getD 1 [] ≠ []) &&
    (parts.getD 2 [] = "snapshots".toList) &&
    (parts.getD 3 [] ≠ []) &&
    (parts.getD 4 [] = "manifest.json".toList)

/-- DefaultLayout.IsManifest from layout.go. -/
def IsManifest (p : GoStr) : Bool :=
  isValidManifestPath p

/-- DefaultLayout.ParseDatasetID from layout.go: the second slash-separated
component of a valid manifest path, and empty otherwise. -/
def ParseDatasetID (manifestPath : GoStr) : GoStr :=
  if ¬ isValidManifestPath manifestPath then []
  else (goSplit '/' manifestPath).getD 1 []

/-- DefaultLayout.ParseSegmentID from layout.go: the fourth slash-separated
component of a valid manifest path, and empty otherwise. -/
def ParseSegmentID (manifestPath : GoStr) : GoStr :=
  if ¬ isValidManifestPath manifestPath then []
  else (goSplit '/' manifestPath).getD 3 []

/-- First index holding the component data, as the loop in
DefaultLayout.ExtractPartitionPath computes it. -/
def findDataIdx : List GoStr → Option Nat
  | [] => none
  | c :: rest =>
    if c = "data".toList then some 0
    else (findDataIdx rest).map (· + 1)

/-- DefaultLayout.ExtractPartitionPath from layout.go: everything between
the first data component and the final component, joined with slashes;
empty when there is no data component, when it is last, or when nothing
lies between it and the filename. -/
def ExtractPartitionPath (filePath : GoStr) : GoStr :=
  let parts := goSplit '/' filePath
  match findDataIdx parts with
  | none => []
  | some i =>
    if i ≥ parts.length - 1 then []
    else
      let partParts := (parts.take (parts.length - 1)).drop (i + 1)
      if partParts = [] then [] else goJoin '/' partParts

/-- Details of a manifest validation failure, as in validate.go: the
canonical JSON name of the failing field, and a message. -/
structure ManifestValidationError where
  Field : GoStr
  Message : GoStr
deriving DecidableEq, Repr

/-- Go error values reachable in the modelled fragment: sentinel errors
made by errors.New, and the typed manifest validation error.  Equality of
two errorString values models pointer equality of the one errors.New value
each distinct message names in this package. -/
inductive GoError where
  | errorString (msg : GoStr)
  | manifestValidation (e : ManifestValidationError)
deriving DecidableEq, Repr

/-- Structural equality on modelled Go errors, standing for the interface
comparison errors.Is performs. -/
def GoError.beq : GoError → GoError → Bool
  | .errorString a, .errorString b => a = b
  | .manifestValidation a, .manifestValidation b => a = b
  | _, _ => false

instance : BEq GoError := ⟨GoError.beq⟩

/-- ErrManifestInvalid from validate.go: errors.New on the text invalid
manifest. -/
def ErrManifestInvalid : GoError :=
  .errorString "invalid manifest".toList

/-- Unwrap on the modelled errors: a ManifestValidationError unwraps to the
ErrManifestInvalid sentinel (validate.go); sentinel errors unwrap to
nothing. -/
def GoError.Unwrap : GoError → Option GoError
  | .manifestValidation _ => some ErrManifestInvalid
  | .errorString _ => none

/-- Go errors.Is chain walk, with fuel standing for the finiteness of
unwrap chains (in this model a chain has length at most two). -/
def errorsIsFuel : Nat → GoError → GoError → Bool
  | 0, _, _ => false
  | fuel + 1, err, target =>
    err == target ||
      match err.Unwrap with
      | some e => errorsIsFuel fuel e target
      | none => false

/-- Go errors.Is for the modelled errors. -/
def errorsIs (err target : GoError) : Bool :=
  errorsIsFuel 100 err target

/-- Go errors.As with a target of type pointer to
ManifestValidationError. -/
def errorsAsManifestValidationFuel : Nat → GoError → Option ManifestValidationError
  | 0, _ => none
  | fuel + 1, err =>
    match err with
    | .manifestValidation e => some e
    | _ =>
      match err.Unwrap with
      | some e2 => errorsAsManifestValidationFuel fuel e2
      | none => none

/-- Go errors.As for a ManifestValidationError target. -/
def errorsAsManifestValidation (err : GoError) : Option ManifestValidationError :=
  errorsAsManifestValidationFuel 100 err

/-- Go time.Time reduced to what the validator observes: a count of
nanoseconds, zero exactly for the zero time. -/
structure GoTime where
  unixNano : Int
deriving DecidableEq, Repr

/-- Go time.Time.IsZero in the reduced model. -/
def GoTime.IsZero (t : GoTime) : Bool :=
  t.unixNano = 0

/-- lode.FileRef (declared in the lode package; reconstructed here from
its uses in validate.go and iterator.go): path, size in bytes and the
optional checksum of one data object. -/
structure FileRef where
  Path : GoStr
  SizeBytes : Int
  Checksum : GoStr := []
deriving DecidableEq, Repr

/-- lode.Manifest (declared in the lode package; reconstructed from its
uses in validate.go and its JSON field set).  Nilable Go values (the
metadata map and the files slice) are options. -/
structure Manifest where
  SchemaName : GoStr
  FormatVersion : GoStr
  DatasetID : GoStr
  SnapshotID : GoStr
  CreatedAt : GoTime
  Metadata : Option (List (GoStr × GoStr))
  Files : Option (List FileRef)
  RowCount : Int
  Codec : GoStr
  Compressor : GoStr
  Partitioner : GoStr
deriving DecidableEq, Repr

/-- Decimal rendering of a file index, as fmt.Sprintf writes it. -/
def natToDec (n : Nat) : GoStr :=
  (Nat.repr n).toList

/-- Canonical JSON name files[i].path from validate.go. -/
def filesFieldPath (i : Nat) : GoStr :=
  "files[".toList ++ natToDec i ++ "].path".toList

/-- Canonical JSON name files[i].size_bytes from validate.go. -/
def filesFieldSize (i : Nat) : GoStr :=
  "files[".toList ++ natToDec i ++ "].size_bytes".toList

/-- Per-file loop of ValidateManifest: the first file with an empty path
or a negative size yields the error for that file, in index order. -/
def validateFiles (i : Nat) : List FileRef → Option ManifestValidationError
  | [] => none
  | f :: rest =>
    if f.Path = [] then some ⟨filesFieldPath i, "is required".toList⟩
    else if f.SizeBytes < 0 then some ⟨filesFieldSize i, "must be non-negative".toList⟩
    else validateFiles (i + 1) rest

/-- ValidateManifest from validate.go: the nil check and then each
required-field check in source order; the first failure is returned with
the field's canonical JSON name, and nil (none) means the manifest is
valid. -/
def ValidateManifest (m? : Option Manifest) : Option ManifestValidationError :=
  match m? with
  | none => some ⟨"manifest".toList, "is nil".toList⟩
  | some m =>
    if m.SchemaName = [] then some ⟨"schema_name".toList, "is required".toList⟩
    else if m.FormatVersion = [] then some ⟨"format_version".toList, "is required".toList⟩
    else if m.DatasetID = [] then some ⟨"dataset_id".toList, "is required".toList⟩
    else if m.SnapshotID = [] then some ⟨"snapshot_id".toList, "is required".toList⟩
    else if m.CreatedAt.IsZero then some ⟨"created_at".toList, "is required".toList⟩
    else if m.Metadata.isNone then
      some ⟨"metadata".toList, "must not be nil (use empty map for no metadata)".toList⟩
    else if m.Files.isNone then
      some ⟨"files".toList, "must not be nil (use empty slice for no files)".toList⟩
    else if m.RowCount < 0 then some ⟨"row_count".toList, "must be non-negative".toList⟩
    else if m.Codec = [] then some ⟨"codec".toList, "is required".toList⟩
    else if m.Compressor = [] then some ⟨"compressor".toList, "is required".toList⟩
    else if m.Partitioner = [] then some ⟨"partitioner".toList, "is required".toList⟩
    else validateFiles 0 (m.Files.getD [])

/-- Per-file checks in the order the specification lists them, as pairs of
a canonical JSON field name and whether the check passes.  Transcribed
from the spec text: for each file i, path non-empty and size_bytes at
least zero. -/
def fileChecksSpec (i : Nat) : List FileRef → List (GoStr × Bool)
  | [] => []
  | f :: rest =>
    (filesFieldPath i, !(f.Path = [])) ::
    (filesFieldSize i, decide (0 ≤ f.SizeBytes)) ::
    fileChecksSpec (i + 1) rest

/-- Required checks in the deterministic order the specification lists,
transcribed from the spec text: schema_name, format_version, dataset_id,
snapshot_id non-empty; created_at not zero; metadata not null; files not
null; row_count at least zero; codec, compressor, partitioner non-empty;
then the per-file checks. -/
def requiredChecksSpec (m : Manifest) : List (GoStr × Bool) :=
  [ ("schema_name".toList, !(m.SchemaName = [])),
    ("format_version".toList, !(m.FormatVersion = [])),
    ("dataset_id".toList, !(m.DatasetID = [])),
    ("snapshot_id".toList, !(m.SnapshotID = [])),
    ("created_at".toList, !m.CreatedAt.IsZero),
    ("metadata".toList, m.Metadata.isSome),
    ("files".toList, m.Files.isSome),
    ("row_count".toList, decide (0 ≤ m.RowCount)),
    ("codec".toList, !(m.Codec = [])),
    ("compressor".toList, !(m.Compressor = [])),
    ("partitioner".toList, !(m.Partitioner = [])) ]
  ++ fileChecksSpec 0 (m.Files.getD [])

/-- First failing check of the specification order: the field name of the
first pair whose check is false, the manifest field itself when the
manifest is nil. -/
def firstFailureSpec (m? : Option Manifest) : Option GoStr :=
  match m? with
  | none => some "manifest".toList
  | some m => ((requiredChecksSpec m).find? (fun c => !c.2)).map (fun c => c.1)

/-- SegmentRef from the read package (reconstructed from its uses in
iterator.go and the tests): a snapshot reference carrying the segment
id. -/
structure SegmentRef where
  ID : GoStr
deriving DecidableEq, Repr

/-- ObjectRef from the read package (reconstructed from its uses in
iterator.go): the dataset, segment and storage path of one object. -/
structure ObjectRef where
  Dataset : GoStr
  Segment : SegmentRef
  Path : GoStr
deriving DecidableEq, Repr

/-- Go zero value of ObjectRef. -/
def zeroObjectRef : ObjectRef :=
  { Dataset := [], Segment := { ID := [] }, Path := [] }

instance : Inhabited FileRef := ⟨{ Path := [], SizeBytes := 0, Checksum := [] }⟩

/-- One call a caller can make on an iterator; the two read-only calls are
kept so call sequences can mention them. -/
inductive ItOp where
  | next
  | close
  | errCall
  | refCall
deriving DecidableEq, Repr

/-- SegmentFileIterator state from iterator.go. -/
structure SegmentFileIterator where
  dataset : GoStr
  segment : SegmentRef
  files : List FileRef
  index : Int
  current : ObjectRef
  err : Option GoError
  closed : Bool
deriving DecidableEq, Repr

/-- NewSegmentFileIterator from iterator.go: the index starts before the
first element; the other fields are Go zero values. -/
def NewSegmentFileIterator (dataset : GoStr) (segment : SegmentRef)
    (files : List FileRef) : SegmentFileIterator :=
  { dataset := dataset, segment := segment, files := files, index := -1,
    current := zeroObjectRef, err := none, closed := false }

/-- SegmentFileIterator.Next from iterator.go: false once closed;
otherwise the index advances, exhaustion yields false, and in range the
current object reference is rebuilt from the file at the index. -/
def SegmentFileIterator.Next (it : SegmentFileIterator) : Bool × SegmentFileIterator :=
  if it.closed then (false, it)
  else
    let it2 := { it with index := it.index + 1 }
    if it2.index ≥ (it2.files.length : Int) then (false, it2)
    else
      (true, { it2 with current :=
        { Dataset := it2.dataset, Segment := it2.segment,
          Path := (it2.files.getD it2.index.toNat default).Path } })

/-- SegmentFileIterator.Ref from iterator.go. -/
def SegmentFileIterator.Ref (it : SegmentFileIterator) : ObjectRef :=
  it.current

/-- SegmentFileIterator.Err from iterator.go. -/
def SegmentFileIterator.Err (it : SegmentFileIterator) : Option GoError :=
  it.err

/-- SegmentFileIterator.Close from iterator.go: marks the iterator closed,
releases the files slice, returns nil. -/
def SegmentFileIterator.Close (it : SegmentFileIterator) :
    Option GoError × SegmentFileIterator :=
  (none, { it with closed := true, files := [] })

/-- State left by one call on a SegmentFileIterator. -/
def SegmentFileIterator.step (it : SegmentFileIterator) : ItOp → SegmentFileIterator
  | .next => it.Next.2
  | .close => it.Close.2
  | .errCall => it
  | .refCall => it

/-- State left by a sequence of calls on a SegmentFileIterator. -/
def SegmentFileIterator.runOps (it : SegmentFileIterator) (ops : List ItOp) :
    SegmentFileIterator :=
  ops.foldl SegmentFileIterator.step it

/-- State after a run of Next calls (no Close in between). -/
def SegmentFileIterator.afterNexts (it : SegmentFileIterator) : Nat → SegmentFileIterator
  | 0 => it
  | n + 1 => SegmentFileIterator.afterNexts it.Next.2 n

/-- ListingIterator state from iterator.go. -/
structure ListingIterator where
  dataset : GoStr
  segment : SegmentRef
  keys : List GoStr
  index : Int
  current : ObjectRef
  err : Option GoError
  closed : Bool
deriving DecidableEq, Repr

/-- NewListingIterator from iterator.go. -/
def NewListingIterator (dataset : GoStr) (segment : SegmentRef)
    (keys : List GoStr) : ListingIterator :=
  { dataset := dataset, segment := segment, keys := keys, index := -1,
    current := zeroObjectRef, err := none, closed := false }

/-- ListingIterator.Next from iterator.go. -/
def ListingIterator.Next (it : ListingIterator) : Bool × ListingIterator :=
  if it.closed then (false, it)
  else
    let it2 := { it with index := it.index + 1 }
    if it2.index ≥ (it2.keys.length : Int) then (false, it2)
    else
      (true, { it2 with current :=
        { Dataset := it2.dataset, Segment := it2.segment,
          Path := it2.keys.getD it2.index.toNat [] } })

/-- ListingIterator.Ref from iterator.go. -/
def ListingIterator.Ref (it : ListingIterator) : ObjectRef :=
  it.current

/-- ListingIterator.Err from iterator.go. -/
def ListingIterator.Err (it : ListingIterator) : Option GoError :=
  it.err

/-- ListingIterator.Close from iterator.go. -/
def ListingIterator.Close (it : ListingIterator) : Option GoError × ListingIterator :=
  (none, { it with closed := true, keys := [] })

/-- State left by one call on a ListingIterator. -/
def ListingIterator.step (it : ListingIterator) : ItOp → ListingIterator
  | .next => it.Next.2
  | .close => it.Close.2
  | .errCall => it
  | .refCall => it

/-- State left by a sequence of calls on a ListingIterator. -/
def ListingIterator.runOps (it : ListingIterator) (ops : List ItOp) : ListingIterator :=
  ops.foldl ListingIterator.step it

/-- EmptyIterator state from iterator.go. -/
structure EmptyIterator where
  closed : Bool
deriving DecidableEq, Repr

/-- NewEmptyIterator from iterator.go. -/
def NewEmptyIterator : EmptyIterator :=
  { closed := false }

/-- EmptyIterator.Next from iterator.go: always false. -/
def EmptyIterator.Next (it : EmptyIterator) : Bool × EmptyIterator :=
  (false, it)

/-- EmptyIterator.Ref from iterator.go: the zero ObjectRef. -/
def EmptyIterator.Ref (_ : EmptyIterator) : ObjectRef :=
  zeroObjectRef

/-- EmptyIterator.Err from iterator.go: always nil. -/
def EmptyIterator.Err (_ : EmptyIterator) : Option GoError :=
  none

/-- EmptyIterator.Close from iterator.go. -/
def EmptyIterator.Close (it : EmptyIterator) : Option GoError × EmptyIterator :=
  (none, { it with closed := true })

/-- State left by one call on an EmptyIterator. -/
def EmptyIterator.step (it : EmptyIterator) : ItOp → EmptyIterator
  | .next => it.Next.2
  | .close => it.Close.2
  | .errCall => it
  | .refCall => it

/-- State left by a sequence of calls on an EmptyIterator. -/
def EmptyIterator.runOps (it : EmptyIterator) (ops : List ItOp) : EmptyIterator :=
  ops.foldl EmptyIterator.step it

/-- Stand-in for storage.SizedReaderAt, whose members the modelled claims
never inspect on the nil-capability path. -/
structure SizedReaderAt where
  size : Int
deriving DecidableEq, Repr

/-- RangeReadStore from storage.go: the optional capability interface, as
a record of its three methods. -/
structure RangeReadStore where
  StatF : GoStr → Except GoError Int
  ReadRangeF : GoStr → Int → Int → Except GoError (List Nat)
  ReaderAtF : GoStr → Except GoError SizedReaderAt

/-- lode.Store together with whether the dynamic value also implements
RangeReadStore: the asRangeReadStore field models the Go interface
assertion in NewStoreAdapter. -/
structure LodeStore where
  GetF : GoStr → Except GoError (List Nat)
  ListF : GoStr → Except GoError (List GoStr)
  asRangeReadStore : Option RangeReadStore

/-- ErrRangeReadNotSupported sentinel (declared outside the provided
files; only its identity matters here). -/
def ErrRangeReadNotSupported : GoError :=
  .errorString "range reads not supported".toList

/-- StoreAdapter from storage.go. -/
structure StoreAdapter where
  store : LodeStore
  rangeReadStore : Option RangeReadStore

/-- NewStoreAdapter from storage.go: detects range-read support through the
interface assertion on the given store. -/
def NewStoreAdapter (store : LodeStore) : StoreAdapter :=
  { store := store, rangeReadStore := store.asRangeReadStore }

/-- StoreAdapter.ReadRange from storage.go: ErrRangeReadNotSupported when
the underlying store lacks the capability, else the true range read. -/
def StoreAdapter.ReadRange (a : StoreAdapter) (key : GoStr) (off length : Int) :
    Except GoError (List Nat) :=
  match a.rangeReadStore with
  | none => .error ErrRangeReadNotSupported
  | some rrs => rrs.ReadRangeF key off length

/-- StoreAdapter.ReaderAt from storage.go. -/
def StoreAdapter.ReaderAt (a : StoreAdapter) (key : GoStr) :
    Except GoError SizedReaderAt :=
  match a.rangeReadStore with
  | none => .error ErrRangeReadNotSupported
  | some rrs => rrs.ReaderAtF key

/-- StoreAdapter.SupportsRangeReads from storage.go. -/
def StoreAdapter.SupportsRangeReads (a : StoreAdapter) : Bool :=
  a.rangeReadStore.isSome

/-- ListOptions from the read package (reconstructed from its use in
storage.go): the page limit. -/
structure ListOptions where
  Limit : Int
deriving DecidableEq, Repr

/-- ListPage from the read package (reconstructed from its use in
storage.go): the returned keys and whether more were available. -/
structure ListPage where
  Keys : List GoStr
  HasMore : Bool
deriving DecidableEq, Repr

/-- StoreAdapter List method from storage.go: lists the prefix on the
underlying store, then truncates to the limit when one is set and
exceeded. -/
def StoreAdapterList (a : StoreAdapter) (pfx : GoStr) (opts : ListOptions) :
    Except GoError ListPage :=
  match a.store.ListF pfx with
  | .error e => .error e
  | .ok paths =>
    let keys := paths
    if opts.Limit > 0 ∧ (keys.length : Int) > opts.Limit then
      .ok { Keys := keys.take opts.Limit.toNat, HasMore := true }
    else
      .ok { Keys := keys, HasMore := false }

/-- Modulus of 32-bit machine words. -/
def w32 : Nat := 4294967296

/-- MD5 sine-derived round constants, as tabulated in crypto/md5. -/
def md5K : List Nat := [
  0xd76aa478, 0xe8c7b756, 0x242070db, 0xc1bdceee,
  0xf57c0faf, 0x4787c62a, 0xa8304613, 0xfd469501,
  0x698098d8, 0x8b44f7af, 0xffff5bb1, 0x895cd7be,
  0x6b901122, 0xfd987193, 0xa679438e, 0x49b40821,
  0xf61e2562, 0xc040b340, 0x265e5a51, 0xe9b6c7aa,
  0xd62f105d, 0x02441453, 0xd8a1e681, 0xe7d3fbc8,
  0x21e1cde6, 0xc33707d6, 0xf4d50d87, 0x455a14ed,
  0xa9e3e905, 0xfcefa3f8, 0x676f02d9, 0x8d2a4c8a,
  0xfffa3942, 0x8771f681, 0x6d9d6122, 0xfde5380c,
  0xa4beea44, 0x4bdecfa9, 0xf6bb4b60, 0xbebfbc70,
  0x289b7ec6, 0xeaa127fa, 0xd4ef3085, 0x04881d05,
  0xd9d4d039, 0xe6db99e5, 0x1fa27cf8, 0xc4ac5665,
  0xf4292244, 0x432aff97, 0xab9423a7, 0xfc93a039,
  0x655b59c3, 0x8f0ccc92, 0xffeff47d, 0x85845dd1,
  0x6fa87e4f, 0xfe2ce6e0, 0xa3014314, 0x4e0811a1,
  0xf7537e82, 0xbd3af235, 0x2ad7d2bb, 0xeb86d391 ]

/-- MD5 per-round left-rotation amounts. -/
def md5S : List Nat := [
  7, 12, 17, 22, 7, 12, 17, 22, 7, 12, 17, 22, 7, 12, 17, 22,
  5, 9, 14, 20, 5, 9, 14, 20, 5, 9, 14, 20, 5, 9, 14, 20,
  4, 11, 16, 23, 4, 11, 16, 23, 4, 11, 16, 23, 4, 11, 16, 23,
  6, 10, 15, 21, 6, 10, 15, 21, 6, 10, 15, 21, 6, 10, 15, 21 ]

/-- Left rotation of a 32-bit word. -/
def rotl32 (x s : Nat) : Nat :=
  ((x <<< s) ||| (x >>> (32 - s))) % w32

/-- MD5 round function, by round number. -/
def md5F (i b c d : Nat) : Nat :=
  if i < 16 then (b &&& c) ||| (((w32 - 1) ^^^ b) &&& d)
  else if i < 32 then (d &&& b) ||| (((w32 - 1) ^^^ d) &&& c)
  else if i < 48 then b ^^^ c ^^^ d
  else c ^^^ (b ||| ((w32 - 1) ^^^ d))

/-- MD5 message-word schedule, by round number. -/
def md5G (i : Nat) : Nat :=
  if i < 16 then i
  else if i < 32 then (5 * i + 1) % 16
  else if i < 48 then (3 * i + 5) % 16
  else (7 * i) % 16

/-- Little-endian 32-bit word number j of a 64-byte block. -/
def leWord (bs : List Nat) (j : Nat) : Nat :=
  (bs.getD (4 * j) 0 % 256) + 256 * (bs.getD (4 * j + 1) 0 % 256)
    + 65536 * (bs.getD (4 * j + 2) 0 % 256)
    + 16777216 * (bs.getD (4 * j + 3) 0 % 256)

/-- One MD5 round on the four-word state. -/
def md5Step (m : Nat → Nat) (st : Nat × Nat × Nat × Nat) (i : Nat) :
    Nat × Nat × Nat × Nat :=
  let a := st.1
  let b := st.2.1
  let c := st.2.2.1
  let d := st.2.2.2
  let f := (md5F i b c d + a + md5K.getD i 0 + m (md5G i)) % w32
  (d, (b + rotl32 f (md5S.getD i 0)) % w32, b, c)

/-- MD5 compression of one 64-byte block into the running state. -/
def md5Block (st : Nat × Nat × Nat × Nat) (block : List Nat) :
    Nat × Nat × Nat × Nat :=
  let m := leWord block
  let r := (List.range 64).foldl (md5Step m) st
  ((st.1 + r.1) % w32, (st.2.1 + r.2.1) % w32,
   (st.2.2.1 + r.2.2.1) % w32, (st.2.2.2 + r.2.2.2) % w32)

/-- MD5 padding: a 0x80 byte, zeros to 56 modulo 64, then the bit length
as a little-endian 64-bit number. -/
def md5Pad (msg : List Nat) : List Nat :=
  let n := msg.length
  let k := (64 + 56 - ((n + 1) % 64)) % 64
  let lenBits := (8 * n) % (2 ^ 64)
  msg ++ 128 :: (List.replicate k 0
    ++ (List.range 8).map (fun j => (lenBits >>> (8 * j)) % 256))

/-- Split a padded message into 64-byte blocks; the first argument is
fuel bounding the recursion by the length of the list. -/
def toBlocks : Nat → List Nat → List (List Nat)
  | 0, _ => []
  | _, [] => []
  | fuel + 1, l => l.take 64 :: toBlocks fuel (l.drop 64)

/-- Little-endian bytes of a 32-bit word. -/
def wordBytes (x : Nat) : List Nat :=
  [x % 256, (x >>> 8) % 256, (x >>> 16) % 256, (x >>> 24) % 256]

/-- MD5 digest of a byte sequence: sixteen bytes. -/
def md5Digest (msg : List Nat) : List Nat :=
  let padded := md5Pad msg
  let st := (toBlocks padded.length padded).foldl md5Block
    (0x67452301, 0xefcdab89, 0x98badcfe, 0x10325476)
  wordBytes st.1 ++ wordBytes st.2.1 ++ wordBytes st.2.2.1 ++ wordBytes st.2.2.2

/-- Lowercase hexadecimal digits, as encoding/hex uses. -/
def hexDigitChars : GoStr :=
  "0123456789abcdef".toList

/-- Go hex.EncodeToString: two lowercase hex digits per byte. -/
def hexEncode : List Nat → GoStr
  | [] => []
  | b :: bs => hexDigitChars.getD (b / 16) '0' :: hexDigitChars.getD (b % 16) '0' :: hexEncode bs

/-- Name of the MD5 checksum component, from md5Checksum.Name in
checksum file. -/
def md5ChecksumName : GoStr :=
  "md5".toList

/-- hashWriter from the checksum file, reduced to the bytes written so
far: Write appends, and the underlying hash state is a function of the
written bytes. -/
structure HashWriter where
  written : List Nat
deriving DecidableEq, Repr

/-- md5Checksum.NewHasher: a fresh MD5 hash state. -/
def NewHasher : HashWriter :=
  { written := [] }

/-- hashWriter.Write: feeds bytes to the hash. -/
def HashWriter.Write (hw : HashWriter) (p : List Nat) : HashWriter :=
  { written := hw.written ++ p }

/-- hashWriter.Sum: the hex encoding of the MD5 digest of everything
written, with no algorithm prefix, exactly as the Go method returns
hex.EncodeToString of the hash sum. -/
def HashWriter.Sum (hw : HashWriter) : GoStr :=
  hexEncode (md5Digest hw.written)

/-- Concrete store without the range-read capability, for witnesses. -/
def plainStore : LodeStore :=
  { GetF := (fun _ => .ok []), ListF := (fun _ => .ok []), asRangeReadStore := none }

/-- Concrete store whose listing returns three keys, for witnesses. -/
def threeKeyStore : LodeStore :=
  { GetF := (fun _ => .ok []),
    ListF := (fun _ => .ok ["a".toList, "b".toList, "c".toList]),
    asRangeReadStore := none }

theorem goSplit_ne_nil (sep : Char) (s : GoStr) : goSplit sep s ≠ [] := by
  induction s with
  | nil => simp [goSplit]
  | cons c rest ih =>
    simp only [goSplit]
    split
    · simp
    · split
      · simp
      · simp

theorem goSplit_no_sep (sep : Char) (s : GoStr) (h : sep ∉ s) :
    goSplit sep s = [s] := by
  induction s with
  | nil => rfl
  | cons c rest ih =>
    simp only [List.mem_cons, not_or] at h
    simp only [goSplit]
    rw [if_neg (by exact fun hc => h.1 hc.symm)]
    rw [ih h.2]

theorem goSplit_append_sep (sep : Char) (x y : GoStr) (h : sep ∉ x) :
    goSplit sep (x ++ sep :: y) = x :: goSplit sep y := by
  induction x with
  | nil => simp [goSplit]
  | cons c rest ih =>
    simp only [List.mem_cons, not_or] at h
    show goSplit sep (c :: (rest ++ sep :: y)) = (c :: rest) :: goSplit sep y
    simp only [goSplit]
    rw [if_neg (by exact fun hc => h.1 hc.symm)]
    rw [ih h.2]

theorem goSplit_goJoin (sep : Char) (comps : List GoStr)
    (hne : comps ≠ []) (h : ∀ c ∈ comps, sep ∉ c) :
    goSplit sep (goJoin sep comps) = comps := by
  induction comps with
  | nil => exact absurd rfl hne
  | cons c rest ih =>
    cases rest with
    | nil =>
      exact goSplit_no_sep sep c (h c (List.mem_cons_self c []))
    | cons r rs =>
      have hc : sep ∉ c := h c (List.mem_cons_self _ _)
      have hrest : ∀ x ∈ r :: rs, sep ∉ x := fun x hx => h x (List.mem_cons_of_mem _ hx)
      show goSplit sep (c ++ sep :: goJoin sep (r :: rs)) = c :: r :: rs
      rw [goSplit_append_sep sep c _ hc]
      rw [ih (by simp) hrest]

theorem goJoin_goSplit (sep : Char) (s : GoStr) :
    goJoin sep (goSplit sep s) = s := by
  induction s with
  | nil => rfl
  | cons c rest ih =>
    obtain ⟨p, ps, h⟩ : ∃ p ps, goSplit sep rest = p :: ps := by
      cases hsp : goSplit sep rest with
      | nil => exact absurd hsp (goSplit_ne_nil sep rest)
      | cons p ps => exact ⟨p, ps, rfl⟩
    rw [h] at ih
    simp only [goSplit]
    by_cases hc : c = sep
    · rw [if_pos hc, h]
      show ([] : GoStr) ++ sep :: goJoin sep (p :: ps) = c :: rest
      rw [List.nil_append, hc]
      exact congrArg (List.cons sep) ih
    · rw [if_neg hc, h]
      cases ps with
      | nil =>
        show c :: p = c :: rest
        exact congrArg (List.cons c) ih
      | cons q qs =>
        show (c :: p) ++ sep :: goJoin sep (q :: qs) = c :: rest
        simp only [List.cons_append]
        exact congrArg (List.cons c) ih

theorem cleanSeg_of_plain (comps : List GoStr) (rooted : Bool) :
    ∀ acc : List GoStr,
      (∀ c ∈ comps, c ≠ [] ∧ c ≠ ".".toList ∧ c ≠ "..".toList) →
      cleanSeg rooted acc comps = acc.reverse ++ comps := by
  induction comps with
  | nil => intro acc _; simp [cleanSeg]
  | cons c rest ih =>
    intro acc h
    obtain ⟨hc1, hc2, hc3⟩ := h c (List.mem_cons_self _ _)
    have hrest := fun x hx => h x (List.mem_cons_of_mem _ hx)
    simp only [cleanSeg]
    rw [if_neg (not_or.mpr ⟨hc1, hc2⟩), if_neg hc3]
    rw [ih (c :: acc) hrest]
    simp

theorem goJoin_head_ne_nil (c : GoStr) (rest : List GoStr) (hc : c ≠ []) :
    (goJoin '/' (c :: rest)).head? = c.head? := by
  cases rest with
  | nil => rfl
  | cons r rs =>
    show (c ++ '/' :: goJoin '/' (r :: rs)).head? = c.head?
    cases c with
    | nil => exact absurd rfl hc
    | cons ch cs => simp

theorem goJoin_ne_nil_of_head (c : GoStr) (rest : List GoStr) (hc : c ≠ []) :
    goJoin '/' (c :: rest) ≠ [] := by
  cases rest with
  | nil => exact hc
  | cons r rs =>
    show c ++ '/' :: goJoin '/' (r :: rs) ≠ []
    simp

theorem pathClean_of_plain (comps : List GoStr) (hne : comps ≠ [])
    (h : ∀ c ∈ comps, c ≠ [] ∧ '/' ∉ c ∧ c ≠ ".".toList ∧ c ≠ "..".toList)
    (hhead : (goJoin '/' comps).head? ≠ some '/') :
    pathClean (goJoin '/' comps) = goJoin '/' comps := by
  obtain ⟨c, rest, rfl⟩ : ∃ c rest, comps = c :: rest := by
    cases comps with
    | nil => exact absurd rfl hne
    | cons c rest => exact ⟨c, rest, rfl⟩
  have hc1 : c ≠ [] := (h c (List.mem_cons_self _ _)).1
  have hp : goJoin '/' (c :: rest) ≠ [] := goJoin_ne_nil_of_head c rest hc1
  unfold pathClean
  rw [if_neg hp]
  simp only
  rw [goSplit_goJoin '/' (c :: rest) (by simp)
    (fun x hx => (h x hx).2.1)]
  rw [cleanSeg_of_plain (c :: rest) _ []
    (fun x hx => ⟨(h x hx).1, (h x hx).2.2.1, (h x hx).2.2.2⟩)]
  simp only [List.reverse_nil, List.nil_append]
  rw [if_neg hhead, if_neg hp]

theorem joinBuf_nil_ne (e : GoStr) (rest : List GoStr) (he : e ≠ []) :
    joinBuf (e :: rest) [] = joinBuf rest e := by
  conv_lhs => rw [joinBuf]
  rw [if_neg (by simp [he]), if_pos rfl]

theorem joinBuf_cons_ne (e : GoStr) (rest : List GoStr) (buf : GoStr) (hbuf : buf ≠ []) :
    joinBuf (e :: rest) buf = joinBuf rest (buf ++ '/' :: e) := by
  conv_lhs => rw [joinBuf]
  rw [if_neg (by simp [hbuf]), if_neg hbuf]

theorem manifestPath_plain (d s : GoStr) (hd : d ≠ []) (hs : s ≠ [])
    (hd1 : '/' ∉ d) (hs1 : '/' ∉ s)
    (hd2 : d ≠ ".".toList) (hd3 : d ≠ "..".toList)
    (hs2 : s ≠ ".".toList) (hs3 : s ≠ "..".toList) :
    ManifestPath d s
      = goJoin '/' ["datasets".toList, d, "snapshots".toList, s, "manifest.json".toList] := by
  have hbuf : joinBuf ["datasets".toList, d, "snapshots".toList, s, "manifest.json".toList] []
      = goJoin '/' ["datasets".toList, d, "snapshots".toList, s, "manifest.json".toList] := by
    rw [joinBuf_nil_ne _ _ (by decide)]
    rw [joinBuf_cons_ne _ _ _ (by decide)]
    rw [joinBuf_cons_ne _ _ _ (by simp)]
    rw [joinBuf_cons_ne _ _ _ (by simp)]
    rw [joinBuf_cons_ne _ _ _ (by simp)]
    show _ = "datasets".toList ++ '/' :: (d ++ '/' :: ("snapshots".toList ++ '/' :: (s ++ '/' :: "manifest.json".toList)))
    simp [List.append_assoc, joinBuf]
  unfold ManifestPath pathJoin
  rw [if_neg (by simp)]
  rw [hbuf]
  apply pathClean_of_plain
  · simp
  · intro c hc
    simp only [List.mem_cons, List.not_mem_nil, or_false] at hc
    rcases hc with rfl | rfl | rfl | rfl | rfl
    · exact ⟨by decide, by decide, by decide, by decide⟩
    · exact ⟨hd, hd1, hd2, hd3⟩
    · exact ⟨by decide, by decide, by decide, by decide⟩
    · exact ⟨hs, hs1, hs2, hs3⟩
    · exact ⟨by decide, by decide, by decide, by decide⟩
  · rw [goJoin_head_ne_nil _ _ (by decide)]
    decide

theorem goJoin_five_split (d s : GoStr) (hd1 : '/' ∉ d) (hs1 : '/' ∉ s) :
    goSplit '/' (goJoin '/' ["datasets".toList, d, "snapshots".toList, s, "manifest.json".toList])
      = ["datasets".toList, d, "snapshots".toList, s, "manifest.json".toList] := by
  apply goSplit_goJoin
  · simp
  · intro c hc
    simp only [List.mem_cons, List.not_mem_nil, or_false] at hc
    rcases hc with rfl | rfl | rfl | rfl | rfl
    · decide
    · exact hd1
    · decide
    · exact hs1
    · decide

/-- C1 (amended): for the default layout, parsing the manifest path built
from a dataset id and a snapshot id returns the two ids, for every pair of
ids that are non-empty, contain no slash, and are neither the path
component consisting of one dot nor the one consisting of two dots. -/
theorem c1_manifest_path_roundtrip (d s : GoStr)
    (hd : d ≠ []) (hs : s ≠ []) (hd1 : '/' ∉ d) (hs1 : '/' ∉ s)
    (hd2 : d ≠ ".".toList) (hd3 : d ≠ "..".toList)
    (hs2 : s ≠ ".".toList) (hs3 : s ≠ "..".toList) :
    ParseDatasetID (ManifestPath d s) = d ∧ ParseSegmentID (ManifestPath d s) = s := by
  rw [manifestPath_plain d s hd hs hd1 hs1 hd2 hd3 hs2 hs3]
  have hsplit := goJoin_five_split d s hd1 hs1
  have hvalid : isValidManifestPath
      (goJoin '/' ["datasets".toList, d, "snapshots".toList, s, "manifest.json".toList]) = true := by
    unfold isValidManifestPath
    rw [hsplit]
    simp [hd, hs]
  constructor
  · unfold ParseDatasetID
    rw [if_neg (not_not_intro hvalid), hsplit]
    rfl
  · unfold ParseSegmentID
    rw [if_neg (not_not_intro hvalid), hsplit]
    rfl

/-- C1 witness: the round trip at the concrete identifiers my-dataset and
snap-1 used by the layout tests. -/
theorem c1_manifest_path_roundtrip_witness :
    ParseDatasetID (ManifestPath "my-dataset".toList "snap-1".toList) = "my-dataset".toList ∧
    ParseSegmentID (ManifestPath "my-dataset".toList "snap-1".toList) = "snap-1".toList :=
  c1_manifest_path_roundtrip "my-dataset".toList "snap-1".toList
    (by decide) (by decide) (by decide) (by decide)
    (by decide) (by decide) (by decide) (by decide)

/-- C1 counterexample: the id consisting of two dots is valid under the
data model of the claim (non-empty, no separator, no surrounding
whitespace), yet path.Join cleans it away, so parsing does not return
it. -/
theorem c1_dotdot_counterexample :
    ManifestPath "..".toList "x".toList = "snapshots/x/manifest.json".toList ∧
    ParseDatasetID (ManifestPath "..".toList "x".toList) = [] ∧
    ParseDatasetID (ManifestPath "..".toList "x".toList) ≠ "..".toList := by
  refine ⟨by decide, by decide, by decide⟩

theorem list_length_five {α : Type} (l : List α) (h : l.length = 5) :
    ∃ a b c d e, l = [a, b, c, d, e] := by
  rcases l with _ | ⟨a, _ | ⟨b, _ | ⟨c, _ | ⟨d, _ | ⟨e, _ | ⟨x, f⟩⟩⟩⟩⟩⟩ <;>
    simp only [List.length_cons, List.length_nil] at h <;> try omega
  exact ⟨a, b, c, d, e, rfl⟩

/-- C2: IsManifest holds exactly for paths splitting into the five
components datasets, a non-empty dataset id, snapshots, a non-empty
snapshot id, and manifest.json; and every listed stray shape is
rejected. -/
theorem c2_is_manifest_exact :
    (∀ p : GoStr, IsManifest p = true ↔
      ∃ d s : GoStr, d ≠ [] ∧ s ≠ [] ∧
        goSplit '/' p = ["datasets".toList, d, "snapshots".toList, s, "manifest.json".toList]) ∧
    IsManifest [] = false ∧
    IsManifest "manifest.json".toList = false ∧
    IsManifest "datasets/x/misc/manifest.json".toList = false ∧
    IsManifest "datasets/x/snapshots/manifest.json".toList = false ∧
    IsManifest "datasets/x/snapshots/y/sub/manifest.json".toList = false ∧
    IsManifest "datasets/x/snapshots/y/manifest.txt".toList = false := by
  refine ⟨?_, by decide, by decide, by decide, by decide, by decide, by decide⟩
  intro p
  constructor
  · intro h
    unfold IsManifest isValidManifestPath at h
    by_cases hlen : (goSplit '/' p).length = 5
    · obtain ⟨a, b, c, d, e, hsplit⟩ := list_length_five _ hlen
      rw [hsplit] at h
      rw [if_neg (by simp)] at h
      simp only [List.getD_cons_zero, List.getD_cons_succ, Bool.and_eq_true,
        decide_eq_true_eq] at h
      obtain ⟨⟨⟨⟨hA, hB⟩, hC⟩, hD⟩, hE⟩ := h
      refine ⟨b, d, hB, hD, ?_⟩
      rw [hsplit, hA, hC, hE]
    · rw [if_pos hlen] at h
      exact absurd h (by simp)
  · rintro ⟨d, s, hd, hs, hsplit⟩
    unfold IsManifest isValidManifestPath
    rw [hsplit]
    simp [hd, hs]

/-- C7 (amended): on the canonical data path of a file, extraction
returns the partition fragment (empty when there is none), provided the
dataset id and the snapshot id are valid, differ from the literal data
component, the fragment components are non-empty and slash-free, and the
filename is non-empty and slash-free. -/
theorem c7_extract_partition_path (d s f : GoStr) (frag : List GoStr)
    (hd : d ≠ []) (hs : s ≠ []) (hf : f ≠ [])
    (hd1 : '/' ∉ d) (hs1 : '/' ∉ s) (hf1 : '/' ∉ f)
    (hd4 : d ≠ "data".toList) (hs4 : s ≠ "data".toList)
    (hfrag : ∀ c ∈ frag, c ≠ [] ∧ '/' ∉ c) :
    ExtractPartitionPath (goJoin '/'
      ((["datasets".toList, d, "snapshots".toList, s, "data".toList] ++ frag) ++ [f]))
      = goJoin '/' frag := by
  set front : List GoStr :=
    ["datasets".toList, d, "snapshots".toList, s, "data".toList] ++ frag with hfront
  have hsplit : goSplit '/' (goJoin '/' (front ++ [f])) = front ++ [f] := by
    apply goSplit_goJoin
    · simp [hfront]
    · intro c hc
      rw [hfront] at hc
      simp only [List.append_assoc, List.mem_append, List.mem_cons,
        List.not_mem_nil, or_false] at hc
      rcases hc with (rfl | rfl | rfl | rfl | rfl) | hc | rfl
      · decide
      · exact hd1
      · decide
      · exact hs1
      · decide
      · exact (hfrag c hc).2
      · exact hf1
  unfold ExtractPartitionPath
  rw [hsplit]
  dsimp only
  have hidx : findDataIdx (front ++ [f]) = some 4 := by
    rw [hfront]
    show findDataIdx ("datasets".toList :: d :: "snapshots".toList :: s ::
      "data".toList :: (frag ++ [f])) = some 4
    rw [findDataIdx, if_neg (by decide)]
    rw [findDataIdx, if_neg hd4]
    rw [findDataIdx, if_neg (by decide)]
    rw [findDataIdx, if_neg hs4]
    rw [findDataIdx, if_pos rfl]
    rfl
  rw [hidx]
  dsimp only
  have hlen : (front ++ [f]).length = frag.length + 6 := by
    simp [hfront]
  rw [if_neg (by rw [hlen]; omega)]
  have htake : (front ++ [f]).take ((front ++ [f]).length - 1) = front := by
    have h1 : (front ++ [f]).length - 1 = front.length := by simp
    rw [h1, List.take_left]
  rw [htake]
  have hdrop : front.drop 5 = frag := by
    rw [hfront]
    simp
  rw [hdrop]
  cases frag with
  | nil => rfl
  | cons c cs => rw [if_neg (by simp)]

/-- C7 witness: a two-level hive partition under dataset ds and snapshot
snap, and the same dataset with no partition (empty fragment list). -/
theorem c7_extract_partition_path_witness :
    ExtractPartitionPath (goJoin '/'
      ((["datasets".toList, "ds".toList, "snapshots".toList, "snap".toList, "data".toList]
        ++ ["day=2024-01-01".toList, "hour=12".toList]) ++ ["file.json".toList]))
      = goJoin '/' ["day=2024-01-01".toList, "hour=12".toList] ∧
    ExtractPartitionPath (goJoin '/'
      ((["datasets".toList, "ds".toList, "snapshots".toList, "snap".toList, "data".toList]
        ++ []) ++ ["file.json".toList]))
      = goJoin '/' [] :=
  ⟨c7_extract_partition_path "ds".toList "snap".toList "file.json".toList
      ["day=2024-01-01".toList, "hour=12".toList]
      (by decide) (by decide) (by decide) (by decide) (by decide) (by decide)
      (by decide) (by decide) (by decide),
   c7_extract_partition_path "ds".toList "snap".toList "file.json".toList []
      (by decide) (by decide) (by decide) (by decide) (by decide) (by decide)
      (by decide) (by decide) (by simp)⟩

/-- C7 counterexample: with the valid dataset id data, the first data
component of the path is the dataset directory itself, so extraction
returns everything after it instead of the fragment frag. -/
theorem c7_data_dataset_counterexample :
    ExtractPartitionPath "datasets/data/snapshots/s/data/frag/f.json".toList
      = "snapshots/s/data/frag".toList ∧
    ExtractPartitionPath "datasets/data/snapshots/s/data/frag/f.json".toList
      ≠ "frag".toList := by
  refine ⟨by decide, by decide⟩

theorem validateFiles_matches_spec (fs : List FileRef) : ∀ i : Nat,
    ((validateFiles i fs).map (fun e => e.Field)
      = ((fileChecksSpec i fs).find? (fun c => !c.2)).map (fun c => c.1)) ∧
    (validateFiles i fs = none ↔ ∀ c ∈ fileChecksSpec i fs, c.2 = true) := by
  induction fs with
  | nil => intro i; simp [validateFiles, fileChecksSpec]
  | cons f rest ih =>
    intro i
    simp only [validateFiles, fileChecksSpec]
    by_cases hp : f.Path = []
    · rw [if_pos hp, List.find?_cons_of_pos _ (by simp [hp])]
      simp [hp]
    · rw [if_neg hp, List.find?_cons_of_neg _ (by simp [hp])]
      by_cases hsz : f.SizeBytes < 0
      · have hsz2 : ¬ 0 ≤ f.SizeBytes := not_le.mpr hsz
        rw [if_pos hsz, List.find?_cons_of_pos _ (by simp [hsz2])]
        simp [hp, hsz2]
      · have hsz2 : 0 ≤ f.SizeBytes := not_lt.mp hsz
        rw [if_neg hsz, List.find?_cons_of_neg _ (by simp [hsz2])]
        obtain ⟨ihmap, ihiff⟩ := ih (i + 1)
        constructor
        · exact ihmap
        · rw [ihiff]
          simp [hp, hsz2]

/-- C3: ValidateManifest agrees with the specification order of checks:
its result carries the canonical JSON field name of the first failing
check, and it returns nil exactly when the manifest is present and every
required check passes. -/
theorem c3_validate_manifest_first_failure (m? : Option Manifest) :
    ((ValidateManifest m?).map (fun e => e.Field) = firstFailureSpec m?) ∧
    (ValidateManifest m? = none ↔
      ∃ m, m? = some m ∧ ∀ c ∈ requiredChecksSpec m, c.2 = true) := by
  cases m? with
  | none => simp [ValidateManifest, firstFailureSpec]
  | some m =>
    simp only [ValidateManifest, firstFailureSpec, requiredChecksSpec, List.cons_append,
      List.nil_append, Option.some.injEq, exists_eq_left']
    by_cases h1 : m.SchemaName = []
    · rw [if_pos h1, List.find?_cons_of_pos _ (by simp [h1])]
      simp [h1]
    · rw [if_neg h1, List.find?_cons_of_neg _ (by simp [h1])]
      by_cases h2 : m.FormatVersion = []
      · rw [if_pos h2, List.find?_cons_of_pos _ (by simp [h2])]
        simp [h1, h2]
      · rw [if_neg h2, List.find?_cons_of_neg _ (by simp [h2])]
        by_cases h3 : m.DatasetID = []
        · rw [if_pos h3, List.find?_cons_of_pos _ (by simp [h3])]
          simp [h1, h2, h3]
        · rw [if_neg h3, List.find?_cons_of_neg _ (by simp [h3])]
          by_cases h4 : m.SnapshotID = []
          · rw [if_pos h4, List.find?_cons_of_pos _ (by simp [h4])]
            simp [h1, h2, h3, h4]
          · rw [if_neg h4, List.find?_cons_of_neg _ (by simp [h4])]
            by_cases h5 : m.CreatedAt.IsZero = true
            · rw [if_pos h5, List.find?_cons_of_pos _ (by simp [h5])]
              simp [h1, h2, h3, h4, h5]
            · rw [if_neg h5, List.find?_cons_of_neg _ (by simp [h5])]
              by_cases h6 : m.Metadata.isNone = true
              · have h6b : m.Metadata.isSome = false := by
                  cases hm : m.Metadata <;> simp_all [Option.isNone, Option.isSome]
                rw [if_pos h6, List.find?_cons_of_pos _ (by simp [h6b])]
                simp [h6b]
              · have h6b : m.Metadata.isSome = true := by
                  cases hm : m.Metadata <;> simp_all [Option.isNone, Option.isSome]
                rw [if_neg h6, List.find?_cons_of_neg _ (by simp [h6b])]
                by_cases h7 : m.Files.isNone = true
                · have h7b : m.Files.isSome = false := by
                    cases hm : m.Files <;> simp_all [Option.isNone, Option.isSome]
                  rw [if_pos h7, List.find?_cons_of_pos _ (by simp [h7b])]
                  simp [h6b, h7b]
                · have h7b : m.Files.isSome = true := by
                    cases hm : m.Files <;> simp_all [Option.isNone, Option.isSome]
                  rw [if_neg h7, List.find?_cons_of_neg _ (by simp [h7b])]
                  by_cases h8 : m.RowCount < 0
                  · have h8b : ¬ 0 ≤ m.RowCount := not_le.mpr h8
                    rw [if_pos h8, List.find?_cons_of_pos _ (by simp [h8b])]
                    simp [h6b, h7b, h8b]
                  · have h8b : 0 ≤ m.RowCount := not_lt.mp h8
                    rw [if_neg h8, List.find?_cons_of_neg _ (by simp [h8b])]
                    by_cases h9 : m.Codec = []
                    · rw [if_pos h9, List.find?_cons_of_pos _ (by simp [h9])]
                      simp [h6b, h7b, h8b, h9]
                    · rw [if_neg h9, List.find?_cons_of_neg _ (by simp [h9])]
                      by_cases h10 : m.Compressor = []
                      · rw [if_pos h10, List.find?_cons_of_pos _ (by simp [h10])]
                        simp [h6b, h7b, h8b, h9, h10]
                      · rw [if_neg h10, List.find?_cons_of_neg _ (by simp [h10])]
                        by_cases h11 : m.Partitioner = []
                        · rw [if_pos h11, List.find?_cons_of_pos _ (by simp [h11])]
                          simp [h6b, h7b, h8b, h9, h10, h11]
                        · rw [if_neg h11, List.find?_cons_of_neg _ (by simp [h11])]
                          obtain ⟨hmap, hiff⟩ := validateFiles_matches_spec (m.Files.getD []) 0
                          constructor
                          · exact hmap
                          · rw [hiff]
                            simp [h1, h2, h3, h4, h5, h6b, h7b, h8b, h9, h10, h11]

/-- C5: every error returned by ValidateManifest unwraps to the
ErrManifestInvalid sentinel (errors.Is succeeds) and is extractable as a
ManifestValidationError (errors.As succeeds), exposing the failing
field. -/
theorem c5_validation_error_wrapping (m? : Option Manifest)
    (e : ManifestValidationError) (h : ValidateManifest m? = some e) :
    errorsIs (GoError.manifestValidation e) ErrManifestInvalid = true ∧
    errorsAsManifestValidation (GoError.manifestValidation e) = some e := by
  exact ⟨rfl, rfl⟩

/-- C5 witness: the error for a nil manifest satisfies both errors.Is on
the sentinel and errors.As for the typed error. -/
theorem c5_validation_error_wrapping_witness :
    errorsIs (GoError.manifestValidation ⟨"manifest".toList, "is nil".toList⟩)
      ErrManifestInvalid = true ∧
    errorsAsManifestValidation (GoError.manifestValidation ⟨"manifest".toList, "is nil".toList⟩)
      = some ⟨"manifest".toList, "is nil".toList⟩ :=
  c5_validation_error_wrapping none ⟨"manifest".toList, "is nil".toList⟩ rfl

theorem sfi_step_closed (it : SegmentFileIterator) (op : ItOp) (h : it.closed = true) :
    (it.step op).closed = true := by
  cases op with
  | next =>
    show it.Next.2.closed = true
    unfold SegmentFileIterator.Next
    rw [if_pos h]
    exact h
  | close => rfl
  | errCall => exact h
  | refCall => exact h

theorem sfi_step_err (it : SegmentFileIterator) (op : ItOp) :
    (it.step op).err = it.err := by
  cases op with
  | next =>
    show it.Next.2.err = it.err
    unfold SegmentFileIterator.Next
    split
    · rfl
    · dsimp only
      split <;> rfl
  | close => rfl
  | errCall => rfl
  | refCall => rfl

theorem sfi_runOps_closed (ops : List ItOp) :
    ∀ it : SegmentFileIterator, it.closed = true → (it.runOps ops).closed = true := by
  induction ops with
  | nil => intro it h; exact h
  | cons op rest ih =>
    intro it h
    show (SegmentFileIterator.runOps (it.step op) rest).closed = true
    exact ih _ (sfi_step_closed it op h)

theorem sfi_runOps_err (ops : List ItOp) :
    ∀ it : SegmentFileIterator, (it.runOps ops).err = it.err := by
  induction ops with
  | nil => intro it; rfl
  | cons op rest ih =>
    intro it
    show (SegmentFileIterator.runOps (it.step op) rest).err = it.err
    rw [ih _, sfi_step_err]

theorem sfi_next_of_closed (it : SegmentFileIterator) (h : it.closed = true) :
    it.Next.1 = false := by
  unfold SegmentFileIterator.Next
  rw [if_pos h]

theorem li_step_closed (it : ListingIterator) (op : ItOp) (h : it.closed = true) :
    (it.step op).closed = true := by
  cases op with
  | next =>
    show it.Next.2.closed = true
    unfold ListingIterator.Next
    rw [if_pos h]
    exact h
  | close => rfl
  | errCall => exact h
  | refCall => exact h

theorem li_step_err (it : ListingIterator) (op : ItOp) :
    (it.step op).err = it.err := by
  cases op with
  | next =>
    show it.Next.2.err = it.err
    unfold ListingIterator.Next
    split
    · rfl
    · dsimp only
      split <;> rfl
  | close => rfl
  | errCall => rfl
  | refCall => rfl

theorem li_runOps_closed (ops : List ItOp) :
    ∀ it : ListingIterator, it.closed = true → (it.runOps ops).closed = true := by
  induction ops with
  | nil => intro it h; exact h
  | cons op rest ih =>
    intro it h
    show (ListingIterator.runOps (it.step op) rest).closed = true
    exact ih _ (li_step_closed it op h)

theorem li_runOps_err (ops : List ItOp) :
    ∀ it : ListingIterator, (it.runOps ops).err = it.err := by
  induction ops with
  | nil => intro it; rfl
  | cons op rest ih =>
    intro it
    show (ListingIterator.runOps (it.step op) rest).err = it.err
    rw [ih _, li_step_err]

theorem li_next_of_closed (it : ListingIterator) (h : it.closed = true) :
    it.Next.1 = false := by
  unfold ListingIterator.Next
  rw [if_pos h]

/-- C6: the iterator lifecycle laws of the contract, for all three
iterator types, all construction inputs and all call sequences: a Next
made after any Close returns false, every Close (including repeated
closes) returns nil, and Err is well-defined at every point of every
sequence (and stays nil, as these iterators never set an error). -/
theorem c6_iterator_lifecycle_laws :
    (∀ (d : GoStr) (seg : SegmentRef) (files : List FileRef) (ops1 ops2 : List ItOp),
      (((NewSegmentFileIterator d seg files).runOps
          (ops1 ++ ItOp.close :: ops2)).Next).1 = false ∧
      (((NewSegmentFileIterator d seg files).runOps ops1).Close).1 = none ∧
      ((NewSegmentFileIterator d seg files).runOps ops1).Err = none) ∧
    (∀ (d : GoStr) (seg : SegmentRef) (keys : List GoStr) (ops1 ops2 : List ItOp),
      (((NewListingIterator d seg keys).runOps
          (ops1 ++ ItOp.close :: ops2)).Next).1 = false ∧
      (((NewListingIterator d seg keys).runOps ops1).Close).1 = none ∧
      ((NewListingIterator d seg keys).runOps ops1).Err = none) ∧
    (∀ ops1 ops2 : List ItOp,
      ((NewEmptyIterator.runOps (ops1 ++ ItOp.close :: ops2)).Next).1 = false ∧
      ((NewEmptyIterator.runOps ops1).Close).1 = none ∧
      (NewEmptyIterator.runOps ops1).Err = none) := by
  refine ⟨fun d seg files ops1 ops2 => ⟨?_, rfl, ?_⟩,
          fun d seg keys ops1 ops2 => ⟨?_, rfl, ?_⟩,
          fun ops1 ops2 => ⟨rfl, rfl, rfl⟩⟩
  · apply sfi_next_of_closed
    have h1 : SegmentFileIterator.runOps (NewSegmentFileIterator d seg files)
        (ops1 ++ ItOp.close :: ops2)
        = SegmentFileIterator.runOps
            (((NewSegmentFileIterator d seg files).runOps ops1).step ItOp.close) ops2 := by
      unfold SegmentFileIterator.runOps
      rw [List.foldl_append]
      rfl
    rw [h1]
    exact sfi_runOps_closed ops2 _ rfl
  · exact sfi_runOps_err ops1 _
  · apply li_next_of_closed
    have h1 : ListingIterator.runOps (NewListingIterator d seg keys)
        (ops1 ++ ItOp.close :: ops2)
        = ListingIterator.runOps
            (((NewListingIterator d seg keys).runOps ops1).step ItOp.close) ops2 := by
      unfold ListingIterator.runOps
      rw [List.foldl_append]
      rfl
    rw [h1]
    exact li_runOps_closed ops2 _ rfl
  · exact li_runOps_err ops1 _

theorem sfi_afterNexts_char (n : Nat) :
    ∀ it : SegmentFileIterator, it.closed = false →
      (it.afterNexts n).closed = false ∧ (it.afterNexts n).files = it.files ∧
      (it.afterNexts n).dataset = it.dataset ∧ (it.afterNexts n).segment = it.segment ∧
      (it.afterNexts n).index = it.index + n := by
  induction n with
  | zero =>
    intro it h
    exact ⟨h, rfl, rfl, rfl, by show it.index = it.index + ((0 : Nat) : Int); simp⟩
  | succ k ih =>
    intro it h
    have hnext : it.Next.2.closed = false ∧ it.Next.2.files = it.files ∧
        it.Next.2.dataset = it.dataset ∧ it.Next.2.segment = it.segment ∧
        it.Next.2.index = it.index + 1 := by
      unfold SegmentFileIterator.Next
      rw [if_neg (by simp [h])]
      dsimp only
      split
      · exact ⟨h, rfl, rfl, rfl, rfl⟩
      · exact ⟨h, rfl, rfl, rfl, rfl⟩
    obtain ⟨hn1, hn2, hn3, hn4, hn5⟩ := hnext
    obtain ⟨h1, h2, h3, h4, h5⟩ := ih it.Next.2 hn1
    simp only [SegmentFileIterator.afterNexts]
    refine ⟨h1, by rw [h2, hn2], by rw [h3, hn3], by rw [h4, hn4], ?_⟩
    rw [h5, hn5]
    omega

theorem sfi_afterNexts_fresh (d : GoStr) (seg : SegmentRef) (files : List FileRef)
    (n : Nat) :
    ((NewSegmentFileIterator d seg files).afterNexts n).closed = false ∧
    ((NewSegmentFileIterator d seg files).afterNexts n).files = files ∧
    ((NewSegmentFileIterator d seg files).afterNexts n).dataset = d ∧
    ((NewSegmentFileIterator d seg files).afterNexts n).segment = seg ∧
    ((NewSegmentFileIterator d seg files).afterNexts n).index = -1 + n := by
  have h := sfi_afterNexts_char n (NewSegmentFileIterator d seg files) rfl
  exact h

/-- C9: a segment file iterator that is never closed yields exactly the
files of the constructing slice, in order: the first length-many Next
calls return true, the reference after the i-th successful Next carries
the constructor dataset and segment and the path of file i, and every
further Next returns false. -/
theorem c9_segment_file_iterator_in_order
    (d : GoStr) (seg : SegmentRef) (files : List FileRef) :
    (∀ i : Nat, i < files.length →
      (((NewSegmentFileIterator d seg files).afterNexts i).Next).1 = true ∧
      (((NewSegmentFileIterator d seg files).afterNexts i).Next).2.Ref
        = { Dataset := d, Segment := seg, Path := (files.getD i default).Path }) ∧
    (∀ j : Nat, files.length ≤ j →
      (((NewSegmentFileIterator d seg files).afterNexts j).Next).1 = false) := by
  constructor
  · intro i hi
    obtain ⟨h1, h2, h3, h4, h5⟩ := sfi_afterNexts_fresh d seg files i
    unfold SegmentFileIterator.Next
    rw [if_neg (by simp [h1])]
    dsimp only
    rw [if_neg (by rw [h2, h5]; omega)]
    refine ⟨rfl, ?_⟩
    show ObjectRef.mk _ _ _ = ObjectRef.mk _ _ _
    rw [h2, h3, h4, h5]
    have htn : ((-1 : Int) + i + 1).toNat = i := by omega
    rw [htn]
  · intro j hj
    obtain ⟨h1, h2, h3, h4, h5⟩ := sfi_afterNexts_fresh d seg files j
    unfold SegmentFileIterator.Next
    rw [if_neg (by simp [h1])]
    dsimp only
    rw [if_pos (by rw [h2, h5]; omega)]

/-- C8: when the underlying store does not implement RangeReadStore, the
adapter returns ErrRangeReadNotSupported from ReadRange and ReaderAt for
every key, offset and length (no whole-object simulation), and
SupportsRangeReads is false. -/
theorem c8_range_read_not_supported (store : LodeStore)
    (h : store.asRangeReadStore = none) :
    (∀ (key : GoStr) (off length : Int),
      (NewStoreAdapter store).ReadRange key off length
        = .error ErrRangeReadNotSupported) ∧
    (∀ key : GoStr,
      (NewStoreAdapter store).ReaderAt key = .error ErrRangeReadNotSupported) ∧
    (NewStoreAdapter store).SupportsRangeReads = false := by
  refine ⟨fun key off length => ?_, fun key => ?_, ?_⟩
  · unfold StoreAdapter.ReadRange NewStoreAdapter
    rw [h]
  · unfold StoreAdapter.ReaderAt NewStoreAdapter
    rw [h]
  · unfold StoreAdapter.SupportsRangeReads NewStoreAdapter
    rw [h]
    rfl

/-- C8 witness: a concrete store without the range-read capability. -/
theorem c8_range_read_not_supported_witness :
    (NewStoreAdapter plainStore).ReadRange "k".toList 0 10
      = .error ErrRangeReadNotSupported ∧
    (NewStoreAdapter plainStore).ReaderAt "k".toList
      = .error ErrRangeReadNotSupported ∧
    (NewStoreAdapter plainStore).SupportsRangeReads = false := by
  have h := c8_range_read_not_supported plainStore rfl
  exact ⟨h.1 "k".toList 0 10, h.2.1 "k".toList, h.2.2⟩

/-- C10: when the underlying listing succeeds, the adapter returns the
first Limit keys with HasMore true exactly when a positive limit is
exceeded, and the whole listing with HasMore false in every other case
(no limit, non-positive limit, or listing within the limit). -/
theorem c10_store_adapter_list_pagination (store : LodeStore) (pfx : GoStr)
    (opts : ListOptions) (paths : List GoStr)
    (h : store.ListF pfx = .ok paths) :
    (0 < opts.Limit ∧ opts.Limit < (paths.length : Int) →
      StoreAdapterList (NewStoreAdapter store) pfx opts
        = .ok { Keys := paths.take opts.Limit.toNat, HasMore := true } ∧
      (paths.take opts.Limit.toNat).length = opts.Limit.toNat) ∧
    (¬ (0 < opts.Limit ∧ opts.Limit < (paths.length : Int)) →
      StoreAdapterList (NewStoreAdapter store) pfx opts
        = .ok { Keys := paths, HasMore := false }) := by
  constructor
  · rintro ⟨hl, hlen⟩
    unfold StoreAdapterList NewStoreAdapter
    rw [h]
    dsimp only
    rw [if_pos ⟨hl, hlen⟩]
    refine ⟨rfl, ?_⟩
    rw [List.length_take]
    omega
  · intro hn
    unfold StoreAdapterList NewStoreAdapter
    rw [h]
    dsimp only
    rw [if_neg hn]

/-- C10 witness: a three-key listing with limit two is truncated with
HasMore, and with limit zero is returned whole without HasMore. -/
theorem c10_store_adapter_list_pagination_witness :
    (StoreAdapterList (NewStoreAdapter threeKeyStore) "p".toList { Limit := 2 }
      = .ok { Keys := ["a".toList, "b".toList, "c".toList].take (Int.toNat 2),
              HasMore := true } ∧
      (["a".toList, "b".toList, "c".toList].take (Int.toNat 2)).length = Int.toNat 2) ∧
    (StoreAdapterList (NewStoreAdapter threeKeyStore) "p".toList { Limit := 0 }
      = .ok { Keys := ["a".toList, "b".toList, "c".toList], HasMore := false }) :=
  ⟨(c10_store_adapter_list_pagination threeKeyStore "p".toList { Limit := 2 }
      ["a".toList, "b".toList, "c".toList] rfl).1 (by constructor <;> decide),
   (c10_store_adapter_list_pagination threeKeyStore "p".toList { Limit := 0 }
      ["a".toList, "b".toList, "c".toList] rfl).2 (by intro hc; exact absurd hc.1 (by decide))⟩

theorem hexEncode_length (bs : List Nat) : (hexEncode bs).length = 2 * bs.length := by
  induction bs with
  | nil => rfl
  | cons b rest ih =>
    show (hexEncode (b :: rest)).length = 2 * (rest.length + 1)
    simp only [hexEncode, List.length_cons, ih]
    omega

theorem md5Digest_length (msg : List Nat) : (md5Digest msg).length = 16 := by
  unfold md5Digest wordBytes
  simp

theorem hexDigit_mem (n : Nat) : hexDigitChars.getD n '0' ∈ hexDigitChars := by
  rcases Nat.lt_or_ge n 16 with h | h
  · interval_cases n <;> decide
  · have hle : hexDigitChars.length ≤ n := by
      have h16 : hexDigitChars.length = 16 := by decide
      omega
    rw [List.getD_eq_default _ _ hle]
    decide

theorem hexEncode_mem (bs : List Nat) (c : Char) (hc : c ∈ hexEncode bs) :
    c ∈ hexDigitChars := by
  induction bs with
  | nil => simp [hexEncode] at hc
  | cons b rest ih =>
    simp only [hexEncode, List.mem_cons] at hc
    rcases hc with rfl | rfl | hc
    · exact hexDigit_mem _
    · exact hexDigit_mem _
    · exact ih hc

theorem hashWriter_foldl_written (chunks : List (List Nat)) :
    ∀ hw : HashWriter,
      (List.foldl HashWriter.Write hw chunks).written = hw.written ++ chunks.flatten := by
  induction chunks with
  | nil => intro hw; simp
  | cons c rest ih =>
    intro hw
    show (List.foldl HashWriter.Write (hw.Write c) rest).written
      = hw.written ++ (c :: rest).flatten
    rw [ih]
    simp [HashWriter.Write]

/-- C4 (amended): the hasher of the MD5 checksum component returns from
Sum the bare lowercase hex encoding of the MD5 digest of all bytes
written so far: thirty-two lowercase hex digits, with no algorithm-name
prefix (in particular the result never has the form name colon hex). -/
theorem c4_sum_is_bare_hex (chunks : List (List Nat)) :
    (List.foldl HashWriter.Write NewHasher chunks).Sum
      = hexEncode (md5Digest chunks.flatten) ∧
    ((List.foldl HashWriter.Write NewHasher chunks).Sum).length = 32 ∧
    (∀ c ∈ (List.foldl HashWriter.Write NewHasher chunks).Sum, c ∈ hexDigitChars) ∧
    (List.foldl HashWriter.Write NewHasher chunks).Sum
      ≠ md5ChecksumName ++ ':' :: hexEncode (md5Digest chunks.flatten) := by
  have hw : (List.foldl HashWriter.Write NewHasher chunks).written = chunks.flatten := by
    rw [hashWriter_foldl_written]
    simp [NewHasher]
  have hsum : (List.foldl HashWriter.Write NewHasher chunks).Sum
      = hexEncode (md5Digest chunks.flatten) := by
    unfold HashWriter.Sum
    rw [hw]
  have hlen : (hexEncode (md5Digest chunks.flatten)).length = 32 := by
    rw [hexEncode_length, md5Digest_length]
  refine ⟨hsum, by rw [hsum, hlen], ?_, ?_⟩
  · intro c hc
    rw [hsum] at hc
    exact hexEncode_mem _ c hc
  · rw [hsum]
    intro heq
    have hlen2 := congrArg List.length heq
    rw [hlen] at hlen2
    simp [md5ChecksumName, hlen] at hlen2

/-- C4 counterexample: with nothing written, Sum returns the bare hex
digest of the empty input, not the claimed md5-prefixed form. -/
theorem c4_sum_no_prefix_counterexample :
    HashWriter.Sum NewHasher = "d41d8cd98f00b204e9800998ecf8427e".toList ∧
    HashWriter.Sum NewHasher
      ≠ md5ChecksumName ++ ':' :: hexEncode (md5Digest NewHasher.written) ∧
    md5ChecksumName ++ ':' :: hexEncode (md5Digest NewHasher.written)
      = "md5:d41d8cd98f00b204e9800998ecf8427e".toList := by
  refine ⟨by decide, by decide, by decide⟩
